import Mathlib

/-!
Shallow embedding of the Pikciochain T1 equity token (`equity.py`).

The Python module keeps process-wide state: the balance ledger
(`balance_of`, a dict from address to integer balance), `total_supply`,
the delegation mapping (`delegations`), the vote policy flag
(`vote_mode`) and the `emitter` address.  We embed the state as a
structure holding insertion-ordered association lists (Python dicts),
and each operation as a function taking the state and the calling
sender explicitly.  Optional address parameters become `Option String`
(`none` models an omitted argument, Python `None`); Python truthiness
of strings (empty string is falsy) is modelled explicitly.  Fallible
operations return `Except Err`.  The float split factor and the weight
fractions are modelled as exact rationals.
-/

namespace Equity

/-- Error kinds raised by the module (`ValueError`s in the source,
named as in the specification). -/
inductive Err where
  | unauthorized
  | invalidArgument
  | notAShareholder
  | divisionByZero
deriving DecidableEq, Repr

/-- The process-wide mutable state of the token module. -/
structure EquityState where
  balance_of : List (String × Nat)
  total_supply : Nat
  delegations : List (String × String)
  vote_mode : Nat
  emitter : String
deriving DecidableEq, Repr

/-- `_VOTE_POLICY_ODOV`: one dollar one vote (weight-proportional). -/
def VOTE_POLICY_ODOV : Nat := 1

/-- `_VOTE_POLICY_OPOV`: one person one vote (one-holder-one-vote). -/
def VOTE_POLICY_OPOV : Nat := 2

/-- Python `address or context.sender`: an omitted (`None`) or empty
(falsy) address defaults to the sender. -/
def addr_or (address : Option String) (sender : String) : String :=
  match address with
  | none => sender
  | some a => if a = "" then sender else a

/-- `is_shareholder`: the (defaulted) address is a key of `balance_of`. -/
def is_shareholder (s : EquityState) (sender : String)
    (address : Option String) : Bool :=
  (s.balance_of.lookup (addr_or address sender)).isSome

/-- `get_delegate`: `delegations.get(address or sender, '')`. -/
def get_delegate (s : EquityState) (sender : String)
    (address : Option String) : String :=
  (s.delegations.lookup (addr_or address sender)).getD ""

/-- `is_delegating`: `bool(get_delegate(address))` (empty string falsy). -/
def is_delegating (s : EquityState) (sender : String)
    (address : Option String) : Bool :=
  get_delegate s sender address != ""

/-- The comparison `delegations[addr] == address` from `get_delegators`,
performed on the raw optional parameter: comparing a string with Python
`None` is `False`. -/
def matches_address (address : Option String) (delegate : String) : Bool :=
  match address with
  | some a => delegate == a
  | none => false

/-- `get_delegators`: asserts shareholder status (of the defaulted
address), then scans `delegations` comparing each value with the raw
`address` parameter. -/
def get_delegators (s : EquityState) (sender : String)
    (address : Option String) : Except Err (List String) :=
  if is_shareholder s sender address then
    .ok (((s.delegations.filter
      (fun p => matches_address address p.2)).map Prod.fst))
  else .error .notAShareholder

/-- Modelled from the spec: `base.Balances(balance_of).get(address)`
belongs to the external `pikciotok.base` ledger adapter, which is not
in the repository; the spec states that an absent address is treated
as balance 0.  The raw optional `address` is looked up unchanged
(Python `None` is never a dict key). -/
def balances_get (s : EquityState) (address : Option String) : Nat :=
  match address with
  | none => 0
  | some a => (s.balance_of.lookup a).getD 0

/-- `get_organic_shares`: asserts shareholder status (of the defaulted
address), then returns the ledger balance of the raw address. -/
def get_organic_shares (s : EquityState) (sender : String)
    (address : Option String) : Except Err Nat :=
  if is_shareholder s sender address then .ok (balances_get s address)
  else .error .notAShareholder

/-- Python `sum` over a generator of fallible values: items are
evaluated left to right and the first error propagates. -/
def sum_except (f : String → Except Err Nat) : List String → Except Err Nat
  | [] => .ok 0
  | d :: ds => do
    let v ← f d
    let rest ← sum_except f ds
    pure (v + rest)

/-- `get_delegated_shares`: sum of `get_organic_shares` over the
delegators of the address. -/
def get_delegated_shares (s : EquityState) (sender : String)
    (address : Option String) : Except Err Nat := do
  let ds ← get_delegators s sender address
  sum_except (fun d => get_organic_shares s sender (some d)) ds

/-- `get_shares`: asserts shareholder status; a delegating holder has 0
effective shares, otherwise delegated plus organic shares. -/
def get_shares (s : EquityState) (sender : String)
    (address : Option String) : Except Err Nat :=
  if is_shareholder s sender address then
    if is_delegating s sender address then .ok 0
    else do
      let d ← get_delegated_shares s sender address
      let o ← get_organic_shares s sender address
      pure (d + o)
  else .error .notAShareholder

/-- `get_total_shareholders`: `len(balance_of)`. -/
def get_total_shareholders (s : EquityState) : Nat :=
  s.balance_of.length

/-- `get_total_votes`: total supply under one-dollar-one-vote, number
of ledger entries under one-person-one-vote. -/
def get_total_votes (s : EquityState) : Nat :=
  if s.vote_mode = VOTE_POLICY_ODOV then s.total_supply
  else s.balance_of.length

/-- `get_organic_votes`: `get_shares(address)` under one-dollar-one-vote
(note: the source calls `get_shares`, not `get_organic_shares`),
otherwise the constant 1 (no shareholder check is evaluated). -/
def get_organic_votes (s : EquityState) (sender : String)
    (address : Option String) : Except Err Nat :=
  if s.vote_mode = VOTE_POLICY_ODOV then get_shares s sender address
  else .ok 1

/-- `get_delegated_votes`: sum of `get_organic_votes` over the
delegators of the address. -/
def get_delegated_votes (s : EquityState) (sender : String)
    (address : Option String) : Except Err Nat := do
  let ds ← get_delegators s sender address
  sum_except (fun d => get_organic_votes s sender (some d)) ds

/-- `get_votes`: 0 for a delegating holder (evaluated lazily, no
shareholder check), otherwise delegated plus organic votes. -/
def get_votes (s : EquityState) (sender : String)
    (address : Option String) : Except Err Nat :=
  if is_delegating s sender address then .ok 0
  else do
    let d ← get_delegated_votes s sender address
    let o ← get_organic_votes s sender address
    pure (d + o)

/-- `get_organic_weight`: organic votes divided by total votes; Python
division by zero raises. -/
def get_organic_weight (s : EquityState) (sender : String)
    (address : Option String) : Except Err ℚ := do
  let ov ← get_organic_votes s sender address
  if get_total_votes s = 0 then .error .divisionByZero
  else pure ((ov : ℚ) / (get_total_votes s : ℚ))

/-- `get_weight`: effective votes divided by total votes. -/
def get_weight (s : EquityState) (sender : String)
    (address : Option String) : Except Err ℚ := do
  let v ← get_votes s sender address
  if get_total_votes s = 0 then .error .divisionByZero
  else pure ((v : ℚ) / (get_total_votes s : ℚ))

/-- `is_majority`: effective weight strictly above one half. -/
def is_majority (s : EquityState) (sender : String)
    (address : Option String) : Except Err Bool := do
  let w ← get_weight s sender address
  pure (decide (w > (1 : ℚ) / 2))

/-- `_SHAREHOLDERS_RIGHTS`: the fixed rights table, in the dict's
insertion order (ascending thresholds), float keys as exact rationals. -/
def SHAREHOLDERS_RIGHTS : List (ℚ × List String) := [
  (5/100, [
    "apply to court to prevent the conversion of a public company into a private company",
    "call a general meeting",
    "require the circulation of a written resolution to shareholders (in private companies)",
    "require the passing of a resolution at an annual general meeting (AGM) of a public company."]),
  (10/100, [
    "call for a poll vote on a resolution",
    "right to prevent a meeting being held on short notice (in private companies)."]),
  (15/100, [
    "apply to the court to cancel a variation of class rights, provided such shareholders did not consent to, or vote in favour of, the variation."]),
  (25/100, [
    "prevent the passing of a special resolution"])]

/-- The generic body of `_get_rights`: concatenate the right-lists of
the table entries whose threshold is at most the given percentage, in
table order. -/
def rights_of_table (table : List (ℚ × List String)) (percentage : ℚ) :
    List String :=
  ((table.filter (fun p => decide (p.1 ≤ percentage))).map Prod.snd).flatten

/-- `_get_rights`: rights unlocked at the given weight fraction. -/
def get_rights_for (percentage : ℚ) : List String :=
  rights_of_table SHAREHOLDERS_RIGHTS percentage

/-- `get_rights`: rights of a holder from its effective weight. -/
def get_rights (s : EquityState) (sender : String)
    (address : Option String) : Except Err (List String) := do
  let w ← get_weight s sender address
  pure (get_rights_for w)

/-- `get_organic_rights`: rights of a holder from its organic weight. -/
def get_organic_rights (s : EquityState) (sender : String)
    (address : Option String) : Except Err (List String) := do
  let w ← get_organic_weight s sender address
  pure (get_rights_for w)

/-- `set_vote_mode`: emitter only; swaps the mode, returns the old one. -/
def set_vote_mode (s : EquityState) (sender : String) (mode : Nat) :
    Except Err (EquityState × Nat) :=
  if sender = s.emitter then
    .ok ({ s with vote_mode := mode }, s.vote_mode)
  else .error .unauthorized

/-- `split_stock`: emitter only; a factor at most 0 is rejected; every
balance becomes `int(balance * factor)` (truncation, which is the floor
for non-negative values); the new total supply is the exact sum of the
new balances and is returned. -/
def split_stock (s : EquityState) (sender : String) (factor : ℚ) :
    Except Err (EquityState × Nat) :=
  if sender = s.emitter then
    if factor ≤ 0 then .error .invalidArgument
    else
      let new_balances :=
        s.balance_of.map (fun p => (p.1, (⌊(p.2 : ℚ) * factor⌋).toNat))
      let new_total := (new_balances.map Prod.snd).sum
      .ok ({ s with balance_of := new_balances,
                    total_supply := new_total }, new_total)
  else .error .unauthorized

/-- Caller-visible result of `split_stock`: on a raised error the prior
state is unchanged (atomic-call model). -/
def split_stock_run (s : EquityState) (sender : String) (factor : ℚ) :
    EquityState × Except Err Nat :=
  match split_stock s sender factor with
  | .ok (s2, t) => (s2, .ok t)
  | .error e => (s, .error e)

/-! Specification-side definitions, written from the spec's words, used
to compare the implementation against the specified quantities. -/

/-- Definition following the spec's words: a direct delegator of `a` is
an address whose recorded delegate is `a`. -/
def spec_delegators (s : EquityState) (a : String) : List String :=
  (s.delegations.filter (fun p => p.2 == a)).map Prod.fst

/-- Definition following the spec's words: the organic shares of `a`
are its raw ledger balance. -/
def spec_balance (s : EquityState) (a : String) : Nat :=
  (s.balance_of.lookup a).getD 0

/-- Definition following the spec's words: organic votes equal the raw
ledger balance under the weight-proportional policy and exactly 1 under
one-holder-one-vote. -/
def spec_organic_votes (s : EquityState) (a : String) : Nat :=
  if s.vote_mode = VOTE_POLICY_ODOV then spec_balance s a else 1

/-- Definition following the spec's words: delegated votes of `a` are
the sum of the organic votes of its direct delegators. -/
def spec_delegated_votes (s : EquityState) (a : String) : Nat :=
  ((spec_delegators s a).map (spec_organic_votes s)).sum

/-- Definition following the spec's words: delegated shares of `a` are
the sum of the raw ledger balances of its direct delegators. -/
def spec_delegated_balances (s : EquityState) (a : String) : Nat :=
  ((spec_delegators s a).map (spec_balance s)).sum

/-! Concrete states used to evaluate the code on explicit inputs. -/

/-- A two-holder state under the weight-proportional policy in which
"dave" (balance 5) delegates to "alice" (balance 10). -/
def c1_state : EquityState :=
  { balance_of := [("alice", 10), ("dave", 5)]
    total_supply := 15
    delegations := [("dave", "alice")]
    vote_mode := VOTE_POLICY_ODOV
    emitter := "alice" }

/-- A two-holder state in which "dave" (balance 5) delegates to the
sender "sara" (balance 10). -/
def c6_state : EquityState :=
  { balance_of := [("sara", 10), ("dave", 5)]
    total_supply := 15
    delegations := [("dave", "sara")]
    vote_mode := VOTE_POLICY_ODOV
    emitter := "sara" }

/-- A two-holder state whose second holder ("j", balance 1) is pruned
to balance 0 by a half split. -/
def c5_state : EquityState :=
  { balance_of := [("e", 10), ("j", 1)]
    total_supply := 11
    delegations := []
    vote_mode := VOTE_POLICY_ODOV
    emitter := "e" }

/-- The reference scenario: supply 13,000,000 with 0 decimals, emitter
"Pikcio SA" holds all, then 1,200,000 transferred to "John Doe", no
delegations, weight-proportional policy. -/
def scenario_state : EquityState :=
  { balance_of := [("Pikcio SA", 11800000), ("John Doe", 1200000)]
    total_supply := 13000000
    delegations := []
    vote_mode := VOTE_POLICY_ODOV
    emitter := "Pikcio SA" }

/-- The reference scenario after the emitter switches the vote policy
to one-holder-one-vote. -/
def scenario_state_opov : EquityState :=
  { scenario_state with vote_mode := VOTE_POLICY_OPOV }

/-! Theorems settling the claims. -/

/-- C1: the claim fails on the code.  Under the weight-proportional
policy `get_organic_votes` forwards to `get_shares`, the
delegation-inclusive effective shares, not the raw ledger balance: in
`c1_state` the delegating holder "dave" (raw balance 5) gets organic
votes 0, and the delegatee "alice" (raw balance 10, one inbound
delegation of 5) gets organic votes 15. -/
theorem c1_organic_votes_include_delegation :
    c1_state.vote_mode = VOTE_POLICY_ODOV ∧
    spec_balance c1_state "dave" = 5 ∧
    get_organic_votes c1_state "alice" (some "dave") = .ok 0 ∧
    spec_balance c1_state "alice" = 10 ∧
    get_organic_votes c1_state "alice" (some "alice") = .ok 15 :=
  ⟨rfl, rfl, rfl, rfl, rfl⟩

/-- C2: the claim fails on the code.  Under the weight-proportional
policy every direct delegator is itself delegating, so the code's
`get_organic_votes` (which is `get_shares`) returns 0 for it and
`get_delegated_votes` collapses to 0, while the spec-defined sum of the
delegators' raw balances is 5 in `c1_state`. -/
theorem c2_delegated_votes_vanish_under_odov :
    c1_state.vote_mode = VOTE_POLICY_ODOV ∧
    get_delegated_votes c1_state "alice" (some "alice") = .ok 0 ∧
    spec_delegated_balances c1_state "alice" = 5 :=
  ⟨rfl, rfl, rfl⟩

/-- C6: the claim fails on the code.  `get_delegators` and
`get_organic_shares` never rebind their omitted address parameter to
the sender (only the inner shareholder check does): with the sender
"sara" holding balance 10 and one delegator "dave", the omitted-address
calls return the empty tuple and balance 0 instead of ("dave",) and
10. -/
theorem c6_default_address_not_sender :
    get_delegators c6_state "sara" none = .ok [] ∧
    get_delegators c6_state "sara" (some "sara") = .ok ["dave"] ∧
    get_organic_shares c6_state "sara" none = .ok 0 ∧
    get_organic_shares c6_state "sara" (some "sara") = .ok 10 :=
  ⟨rfl, rfl, rfl, rfl⟩

/-- C9: for every state and every factor at most 0, `split_stock`
called by the emitter raises `InvalidArgument` and the caller-visible
state is the unchanged prior state. -/
theorem c9_split_stock_invalid_factor (s : EquityState) (factor : ℚ)
    (hf : factor ≤ 0) :
    split_stock_run s s.emitter factor = (s, .error .invalidArgument) := by
  simp [split_stock_run, split_stock, hf]

/-- C9 witness: `split_stock(0)` on a concrete state fails with
`InvalidArgument` and leaves the state unchanged. -/
theorem c9_split_stock_invalid_factor_witness :
    (0 : ℚ) ≤ 0 ∧
    split_stock_run c5_state c5_state.emitter 0 =
      (c5_state, .error .invalidArgument) :=
  ⟨le_refl 0, c9_split_stock_invalid_factor c5_state 0 (le_refl 0)⟩

/-- C10: under the one-holder-one-vote policy `get_organic_votes`
returns 1 for every address, shareholder or not (no `NotAShareholder`
error is raised), and consequently the organic weight of any address is
1 divided by the number of ledger entries whenever that number is
nonzero. -/
theorem c10_opov_votes_for_any_address (s : EquityState) (sender : String)
    (address : Option String) (hm : s.vote_mode = VOTE_POLICY_OPOV) :
    get_organic_votes s sender address = .ok 1 ∧
    (s.balance_of.length ≠ 0 →
      get_organic_weight s sender address =
        .ok (1 / (s.balance_of.length : ℚ))) := by
  have hmode : ¬ s.vote_mode = VOTE_POLICY_ODOV := by
    rw [hm]; decide
  have h1 : get_organic_votes s sender address = .ok 1 := by
    simp [get_organic_votes, hmode]
  refine ⟨h1, fun h => ?_⟩
  have ht : get_total_votes s = s.balance_of.length := by
    simp [get_total_votes, hmode]
  rw [get_organic_weight, h1, ht]
  simp [Except.bind, h]

/-- C10 witness: in a one-holder-one-vote state with two shareholders,
the absent address "ghost" still gets organic votes 1 and organic
weight one half. -/
theorem c10_opov_votes_for_any_address_witness :
    ({ c5_state with vote_mode := VOTE_POLICY_OPOV } : EquityState).vote_mode
        = VOTE_POLICY_OPOV ∧
    get_organic_votes { c5_state with vote_mode := VOTE_POLICY_OPOV }
      "e" (some "ghost") = .ok 1 ∧
    get_organic_weight { c5_state with vote_mode := VOTE_POLICY_OPOV }
      "e" (some "ghost") = .ok (1 / 2) := by
  have h := c10_opov_votes_for_any_address
    { c5_state with vote_mode := VOTE_POLICY_OPOV } "e" (some "ghost") rfl
  refine ⟨rfl, h.1, ?_⟩
  have h2 := h.2 (by decide)
  rw [h2]
  norm_num [c5_state]

/-- C4: for every state and every positive factor, `split_stock` called
by the emitter succeeds; every holder's balance becomes the floor of
its old balance times the factor, the committed and returned total
supply is the exact sum of the post-split balances, and so the sum of
all balances equals the total supply afterwards. -/
theorem c4_split_stock_reconciliation (s : EquityState) (factor : ℚ)
    (hf : 0 < factor) :
    ∃ s2 : EquityState,
      split_stock s s.emitter factor = .ok (s2, s2.total_supply) ∧
      s2.balance_of =
        s.balance_of.map (fun p => (p.1, (⌊(p.2 : ℚ) * factor⌋).toNat)) ∧
      (∀ p ∈ s.balance_of,
        (p.1, (⌊(p.2 : ℚ) * factor⌋).toNat) ∈ s2.balance_of) ∧
      s2.total_supply = (s2.balance_of.map Prod.snd).sum := by
  have hf2 : ¬ factor ≤ 0 := not_le.mpr hf
  refine ⟨{ s with
      balance_of :=
        s.balance_of.map (fun p => (p.1, (⌊(p.2 : ℚ) * factor⌋).toNat))
      total_supply :=
        ((s.balance_of.map
          (fun p => (p.1, (⌊(p.2 : ℚ) * factor⌋).toNat))).map Prod.snd).sum },
    ?_, rfl, ?_, rfl⟩
  · simp [split_stock, hf2]
  · intro p hp
    exact List.mem_map_of_mem _ hp

/-- C4 witness: splitting the concrete two-holder state by one half
yields balances 5 and 0 with total supply reconciled to their sum. -/
theorem c4_split_stock_reconciliation_witness :
    (0 : ℚ) < 1 / 2 ∧
    ∃ s2 : EquityState,
      split_stock c5_state c5_state.emitter (1 / 2) = .ok (s2, s2.total_supply) ∧
      s2.balance_of =
        c5_state.balance_of.map
          (fun p => (p.1, (⌊(p.2 : ℚ) * (1 / 2)⌋).toNat)) ∧
      (∀ p ∈ c5_state.balance_of,
        (p.1, (⌊(p.2 : ℚ) * (1 / 2)⌋).toNat) ∈ s2.balance_of) ∧
      s2.total_supply = (s2.balance_of.map Prod.snd).sum :=
  ⟨by norm_num, c4_split_stock_reconciliation c5_state (1 / 2) (by norm_num)⟩

/-- C5: the claim fails on the code.  `split_stock` writes the new
balances directly into the ledger without pruning: after splitting
`c5_state` by one half, holder "j" has balance 0 yet is still a ledger
entry, so `is_shareholder` is true for it, `get_total_shareholders`
still counts it, and it still contributes to the one-holder-one-vote
total-votes count. -/
theorem c5_split_keeps_zero_balance_holders :
    ∃ s2 : EquityState,
      split_stock c5_state "e" (1 / 2) = .ok (s2, 5) ∧
      s2.balance_of = [("e", 5), ("j", 0)] ∧
      spec_balance s2 "j" = 0 ∧
      is_shareholder s2 "e" (some "j") = true ∧
      get_total_shareholders s2 = 2 ∧
      get_total_votes { s2 with vote_mode := VOTE_POLICY_OPOV } = 2 := by
  have e1 : (⌊((10 : Nat) : ℚ) * (1 / 2)⌋).toNat = 5 := by
    have h : ((10 : Nat) : ℚ) * (1 / 2) = 5 := by norm_num
    rw [h]
    norm_num
    decide
  have e2 : (⌊((1 : Nat) : ℚ) * (1 / 2)⌋).toNat = 0 := by
    have h : ⌊((1 : Nat) : ℚ) * (1 / 2)⌋ = 0 := by
      rw [Int.floor_eq_iff]
      norm_num
    rw [h]
    rfl
  have hmap : c5_state.balance_of.map
      (fun p => (p.1, (⌊(p.2 : ℚ) * (1 / 2)⌋).toNat)) = [("e", 5), ("j", 0)] := by
    simp only [c5_state, List.map_cons, List.map_nil, e1, e2]
  refine ⟨⟨[("e", 5), ("j", 0)], 5, [], VOTE_POLICY_ODOV, "e"⟩, ?_, rfl, rfl,
    rfl, rfl, rfl⟩
  rw [split_stock, if_pos (show "e" = c5_state.emitter from rfl),
    if_neg (show ¬ (1 : ℚ) / 2 ≤ 0 by norm_num)]
  rw [hmap]
  rfl

/-- C7: in the reference scenario under the weight-proportional policy
John's weight is 1,200,000 divided by 13,000,000, his rights are
exactly the 0.05-bracket list, and he is not a majority; after the
emitter switches to one-holder-one-vote, total votes is 2, John's
weight is exactly one half, and he is still not a majority because
majority requires weight strictly above one half. -/
theorem c7_reference_scenario :
    get_weight scenario_state "Pikcio SA" (some "John Doe") =
      .ok ((1200000 : ℚ) / 13000000) ∧
    get_rights scenario_state "Pikcio SA" (some "John Doe") = .ok [
      "apply to court to prevent the conversion of a public company into a private company",
      "call a general meeting",
      "require the circulation of a written resolution to shareholders (in private companies)",
      "require the passing of a resolution at an annual general meeting (AGM) of a public company."] ∧
    is_majority scenario_state "Pikcio SA" (some "John Doe") = .ok false ∧
    set_vote_mode scenario_state "Pikcio SA" VOTE_POLICY_OPOV =
      .ok (scenario_state_opov, VOTE_POLICY_ODOV) ∧
    get_total_votes scenario_state_opov = 2 ∧
    get_weight scenario_state_opov "Pikcio SA" (some "John Doe") =
      .ok ((1 : ℚ) / 2) ∧
    is_majority scenario_state_opov "Pikcio SA" (some "John Doe") =
      .ok false := by
  have hv : get_votes scenario_state "Pikcio SA" (some "John Doe") =
      .ok 1200000 := rfl
  have ht : get_total_votes scenario_state = 13000000 := rfl
  have hw : get_weight scenario_state "Pikcio SA" (some "John Doe") =
      .ok ((1200000 : ℚ) / 13000000) := by
    rw [get_weight, hv, ht]
    simp [Except.bind]
  have hv2 : get_votes scenario_state_opov "Pikcio SA" (some "John Doe") =
      .ok 1 := rfl
  have ht2 : get_total_votes scenario_state_opov = 2 := rfl
  have hw2 : get_weight scenario_state_opov "Pikcio SA" (some "John Doe") =
      .ok ((1 : ℚ) / 2) := by
    rw [get_weight, hv2, ht2]
    simp [Except.bind]
  refine ⟨hw, ?_, ?_, rfl, ht2, hw2, ?_⟩
  · rw [get_rights, hw]
    have h1 : ((5 : ℚ) / 100 ≤ 1200000 / 13000000) := by norm_num
    have h2 : ¬ ((10 : ℚ) / 100 ≤ 1200000 / 13000000) := by norm_num
    have h3 : ¬ ((15 : ℚ) / 100 ≤ 1200000 / 13000000) := by norm_num
    have h4 : ¬ ((25 : ℚ) / 100 ≤ 1200000 / 13000000) := by norm_num
    simp [Except.bind, get_rights_for, rights_of_table, SHAREHOLDERS_RIGHTS,
      List.filter, h1, h2, h3, h4]
  · rw [is_majority, hw]
    simp [Except.bind]
    norm_num
  · rw [is_majority, hw2]
    simp [Except.bind]

/-- A table entry whose threshold is met contributes its rights ahead
of the rest of the table. -/
theorem rights_of_table_cons_pos (p : ℚ × List String)
    (ps : List (ℚ × List String)) (w : ℚ) (h : p.1 ≤ w) :
    rights_of_table (p :: ps) w = p.2 ++ rights_of_table ps w := by
  simp [rights_of_table, List.filter_cons, h]

/-- A table entry whose threshold is not met contributes nothing. -/
theorem rights_of_table_cons_neg (p : ℚ × List String)
    (ps : List (ℚ × List String)) (w : ℚ) (h : ¬ p.1 ≤ w) :
    rights_of_table (p :: ps) w = rights_of_table ps w := by
  simp [rights_of_table, List.filter_cons, h]

/-- A table none of whose thresholds is met yields no rights. -/
theorem rights_of_table_eq_nil (ps : List (ℚ × List String)) (w : ℚ)
    (h : ∀ q ∈ ps, ¬ q.1 ≤ w) :
    rights_of_table ps w = [] := by
  induction ps with
  | nil => rfl
  | cons p t ih =>
    rw [rights_of_table_cons_neg p t w (h p (List.mem_cons_self p t))]
    exact ih (fun q hq => h q (List.mem_cons_of_mem p hq))

/-- Over a table with ascending thresholds, the rights unlocked at a
lower weight form a list-prefix of the rights unlocked at a higher
weight. -/
theorem rights_of_table_mono (table : List (ℚ × List String))
    (w1 w2 : ℚ) (h : w1 ≤ w2)
    (hs : List.Pairwise (fun p q => p.1 ≤ q.1) table) :
    ∃ t, rights_of_table table w2 = rights_of_table table w1 ++ t := by
  induction table with
  | nil => exact ⟨[], rfl⟩
  | cons p ps ih =>
    rcases List.pairwise_cons.mp hs with ⟨hhead, htail⟩
    by_cases h1 : p.1 ≤ w1
    · have h2 : p.1 ≤ w2 := le_trans h1 h
      rcases ih htail with ⟨t, ht⟩
      refine ⟨t, ?_⟩
      rw [rights_of_table_cons_pos p ps w2 h2,
        rights_of_table_cons_pos p ps w1 h1, ht, List.append_assoc]
    · by_cases h2 : p.1 ≤ w2
      · have hnil : rights_of_table (p :: ps) w1 = [] := by
          apply rights_of_table_eq_nil
          intro q hq
          rcases List.mem_cons.mp hq with heq | hq2
          · rw [heq]; exact h1
          · exact fun hle => h1 (le_trans (hhead q hq2) hle)
        exact ⟨rights_of_table (p :: ps) w2, by rw [hnil, List.nil_append]⟩
      · rcases ih htail with ⟨t, ht⟩
        exact ⟨t, by rw [rights_of_table_cons_neg p ps w2 h2,
          rights_of_table_cons_neg p ps w1 h1, ht]⟩

/-- C8: the rights table has strictly ascending thresholds (so the
concatenation `_get_rights` produces is in ascending-threshold order,
duplicates preserved), and for every pair of weights w1 < w2 the rights
returned for w1 are a prefix — in particular a sub-multiset — of the
rights returned for w2. -/
theorem c8_rights_concatenation_monotone (w1 w2 : ℚ) (h : w1 < w2) :
    List.Chain' (fun p q => p.1 < q.1) SHAREHOLDERS_RIGHTS ∧
    ∃ t, get_rights_for w2 = get_rights_for w1 ++ t := by
  constructor
  · norm_num [SHAREHOLDERS_RIGHTS, List.chain'_cons]
  · exact rights_of_table_mono SHAREHOLDERS_RIGHTS w1 w2 (le_of_lt h)
      (by norm_num [SHAREHOLDERS_RIGHTS, List.pairwise_cons])

/-- A non-empty explicit address parameter is not replaced by the
sender. -/
theorem addr_or_ne (a sender : String) (h : a ≠ "") :
    addr_or (some a) sender = a := by
  simp [addr_or, h]

/-- Looking up a key that an association list with distinct keys (a
Python dict) maps to a value yields that value. -/
theorem lookup_eq_of_mem_nodup {β : Type} (l : List (String × β))
    (k : String) (v : β) (hm : (k, v) ∈ l)
    (hnd : (l.map Prod.fst).Nodup) : l.lookup k = some v := by
  induction l with
  | nil => cases hm
  | cons p t ih =>
    obtain ⟨k2, v2⟩ := p
    rw [List.map_cons, List.nodup_cons] at hnd
    rcases List.mem_cons.mp hm with heq | hmem
    · injection heq with h1 h2
      subst h1
      subst h2
      rw [List.lookup_cons]
      simp
    · have hkmem : k ∈ t.map Prod.fst := by
        simpa using List.mem_map_of_mem Prod.fst hmem
      have hk : (k == k2) = false := by
        have hne : k ≠ k2 := fun he => hnd.1 (he ▸ hkmem)
        simp [hne]
      rw [List.lookup_cons, hk]
      exact ih hmem hnd.2

/-- An address returned by the delegator scan for `a` has a recorded
delegation edge to `a`. -/
theorem mem_delegations_of_mem_spec_delegators (s : EquityState)
    (a d : String) (hd : d ∈ spec_delegators s a) :
    (d, a) ∈ s.delegations := by
  rcases List.mem_map.mp hd with ⟨p, hp, rfl⟩
  rcases List.mem_filter.mp hp with ⟨hmem, hbeq⟩
  have h2 : p.2 = a := by simpa using hbeq
  have h3 : (p.1, a) = p := by rw [← h2]
  rw [h3]
  exact hmem

/-- On an explicit shareholder address, `get_delegators` returns the
spec-defined direct delegators. -/
theorem get_delegators_some_eq (s : EquityState) (sender a : String)
    (ha : is_shareholder s sender (some a) = true) :
    get_delegators s sender (some a) = .ok (spec_delegators s a) := by
  rw [get_delegators, if_pos ha]
  rfl

/-- On an explicit shareholder address, `get_organic_shares` returns
the raw ledger balance. -/
theorem get_organic_shares_some (s : EquityState) (sender a : String)
    (hsh : is_shareholder s sender (some a) = true) :
    get_organic_shares s sender (some a) = .ok (spec_balance s a) := by
  rw [get_organic_shares, if_pos hsh]
  rfl

/-- A delegating shareholder has 0 effective shares. -/
theorem get_shares_delegating (s : EquityState) (sender : String)
    (address : Option String)
    (hsh : is_shareholder s sender address = true)
    (hdel : is_delegating s sender address = true) :
    get_shares s sender address = .ok 0 := by
  rw [get_shares, if_pos hsh, if_pos hdel]

/-- A holder with a recorded delegation edge (in a dict with distinct
keys, edge endpoints non-empty) is delegating. -/
theorem is_delegating_of_mem (s : EquityState) (sender d a : String)
    (hd : d ≠ "") (ha : a ≠ "")
    (hnd : (s.delegations.map Prod.fst).Nodup)
    (hmem : (d, a) ∈ s.delegations) :
    is_delegating s sender (some d) = true := by
  have hl : s.delegations.lookup d = some a :=
    lookup_eq_of_mem_nodup s.delegations d a hmem hnd
  simp [is_delegating, get_delegate, addr_or, hd, hl, ha]

/-- Summing fallible values that all succeed yields the sum of the
values. -/
theorem sum_except_ok (f : String → Except Err Nat) (g : String → Nat) :
    ∀ l : List String, (∀ d ∈ l, f d = .ok (g d)) →
      sum_except f l = .ok ((l.map g).sum) := by
  intro l
  induction l with
  | nil => intro _; rfl
  | cons d ds ih =>
    intro h
    have hd := h d (List.mem_cons_self d ds)
    have hds := ih (fun x hx => h x (List.mem_cons_of_mem d hx))
    simp only [sum_except]
    rw [hd, hds]
    rfl

/-- Summing the constant 0 over a list gives 0. -/
theorem sum_map_zero (l : List String) :
    (l.map (fun _ => (0 : Nat))).sum = 0 := by
  induction l with
  | nil => rfl
  | cons d t ih => simp [ih]

/-- Summing the constant 1 over a list gives its length. -/
theorem sum_map_one (l : List String) :
    (l.map (fun _ => (1 : Nat))).sum = l.length := by
  induction l with
  | nil => rfl
  | cons d t ih => simp [ih, Nat.add_comm]

/-- C3: for a current shareholder `a` (addresses non-empty, the
delegation dict well formed, delegators of `a` current shareholders):
if `a` is delegating then its effective votes and effective shares are
both 0 regardless of its balance; otherwise its effective votes equal
the spec-defined organic votes plus the spec-defined delegated votes,
and its effective shares equal its raw balance plus the sum of its
direct delegators' raw balances. -/
theorem c3_effective_votes_and_shares (s : EquityState) (sender a : String)
    (ha : a ≠ "")
    (hsh : is_shareholder s sender (some a) = true)
    (hnd : (s.delegations.map Prod.fst).Nodup)
    (hwf : ∀ p ∈ s.delegations, p.1 ≠ "" ∧ p.2 ≠ "")
    (hds : ∀ d ∈ spec_delegators s a,
      is_shareholder s sender (some d) = true) :
    (is_delegating s sender (some a) = true →
      get_votes s sender (some a) = .ok 0 ∧
      get_shares s sender (some a) = .ok 0) ∧
    (is_delegating s sender (some a) = false →
      get_shares s sender (some a) =
        .ok (spec_balance s a + spec_delegated_balances s a) ∧
      get_votes s sender (some a) =
        .ok (spec_organic_votes s a + spec_delegated_votes s a)) := by
  have hdel_facts : ∀ d ∈ spec_delegators s a,
      get_organic_shares s sender (some d) = .ok (spec_balance s d) ∧
      get_shares s sender (some d) = .ok 0 := by
    intro d hd
    have hmem : (d, a) ∈ s.delegations :=
      mem_delegations_of_mem_spec_delegators s a d hd
    have hdne : d ≠ "" := (hwf (d, a) hmem).1
    have hshd := hds d hd
    have hdeld : is_delegating s sender (some d) = true :=
      is_delegating_of_mem s sender d a hdne ha hnd hmem
    exact ⟨get_organic_shares_some s sender d hshd,
      get_shares_delegating s sender (some d) hshd hdeld⟩
  have hdelegators := get_delegators_some_eq s sender a hsh
  have hdsh : get_delegated_shares s sender (some a) =
      .ok (spec_delegated_balances s a) := by
    rw [get_delegated_shares, hdelegators]
    exact sum_except_ok _ _ _ (fun d hd => (hdel_facts d hd).1)
  have hov_d : ∀ d ∈ spec_delegators s a,
      get_organic_votes s sender (some d) =
        .ok (if s.vote_mode = VOTE_POLICY_ODOV then 0 else 1) := by
    intro d hd
    by_cases hm : s.vote_mode = VOTE_POLICY_ODOV
    · simp [get_organic_votes, hm, (hdel_facts d hd).2]
    · simp [get_organic_votes, hm]
  have hdv : get_delegated_votes s sender (some a) =
      .ok (((spec_delegators s a).map
        (fun _ => if s.vote_mode = VOTE_POLICY_ODOV then 0 else 1)).sum) := by
    rw [get_delegated_votes, hdelegators]
    exact sum_except_ok _ _ _ hov_d
  constructor
  · intro hdel
    refine ⟨?_, get_shares_delegating s sender (some a) hsh hdel⟩
    rw [get_votes, if_pos hdel]
  · intro hndel
    have hn : ¬ is_delegating s sender (some a) = true := by
      simp [hndel]
    have hosh := get_organic_shares_some s sender a hsh
    have hshares : get_shares s sender (some a) =
        .ok (spec_delegated_balances s a + spec_balance s a) := by
      rw [get_shares, if_pos hsh, if_neg hn, hdsh, hosh]
      rfl
    have hov : get_organic_votes s sender (some a) =
        .ok (if s.vote_mode = VOTE_POLICY_ODOV
          then spec_delegated_balances s a + spec_balance s a else 1) := by
      by_cases hm : s.vote_mode = VOTE_POLICY_ODOV
      · simp [get_organic_votes, hm, hshares]
      · simp [get_organic_votes, hm]
    refine ⟨by rw [hshares, Nat.add_comm], ?_⟩
    rw [get_votes, if_neg hn, hdv, hov]
    show Except.ok (((spec_delegators s a).map
        (fun _ => if s.vote_mode = VOTE_POLICY_ODOV then 0 else 1)).sum +
      (if s.vote_mode = VOTE_POLICY_ODOV
        then spec_delegated_balances s a + spec_balance s a else 1)) = _
    by_cases hm : s.vote_mode = VOTE_POLICY_ODOV
    · have hfun : spec_organic_votes s = spec_balance s :=
        funext (fun x => by simp [spec_organic_votes, hm])
      simp only [hm, if_true, eq_self_iff_true, if_pos, spec_organic_votes,
        spec_delegated_votes, spec_delegated_balances, sum_map_zero]
      rw [Nat.zero_add, Nat.add_comm, hfun]
    · have hfun : spec_organic_votes s = fun _ => (1 : Nat) :=
        funext (fun x => by simp [spec_organic_votes, hm])
      simp only [hm, if_false, spec_organic_votes, spec_delegated_votes,
        sum_map_one]
      rw [Nat.add_comm, hfun, sum_map_one]

/-- C3 witness: in the concrete state `c6_state` the non-delegating
shareholder "sara" has effective shares 10 + 5 and effective votes
equal to the spec-defined organic plus delegated votes. -/
theorem c3_effective_votes_and_shares_witness :
    is_delegating c6_state "sara" (some "sara") = false ∧
    get_shares c6_state "sara" (some "sara") =
      .ok (spec_balance c6_state "sara" +
        spec_delegated_balances c6_state "sara") ∧
    get_votes c6_state "sara" (some "sara") =
      .ok (spec_organic_votes c6_state "sara" +
        spec_delegated_votes c6_state "sara") := by
  have h := (c3_effective_votes_and_shares c6_state "sara" "sara"
    (by decide) (by decide) (by decide) (by decide) (by decide)).2 (by decide)
  exact ⟨by decide, h.1, h.2⟩

/-- C8 witness: the rights at weight one tenth form a prefix of the
rights at weight one quarter. -/
theorem c8_rights_concatenation_monotone_witness :
    (1 : ℚ) / 10 < 1 / 4 ∧
    (List.Chain' (fun p q => p.1 < q.1) SHAREHOLDERS_RIGHTS ∧
     ∃ t, get_rights_for ((1 : ℚ) / 4) = get_rights_for ((1 : ℚ) / 10) ++ t) :=
  ⟨by norm_num,
   c8_rights_concatenation_monotone ((1 : ℚ) / 10) ((1 : ℚ) / 4) (by norm_num)⟩

end Equity
